import Mathlib

/-!
Shallow embedding of the flashcard spaced-repetition subsystem of the
STUDY_AI backend (`backend/main.py`): flashcard creation
(`generate_flashcards`, lines 2365-2378), review
(`review_flashcard`, lines 2453-2483) and due-card selection
(`get_due_flashcards`, lines 2404-2451, in-memory fallback path).

Timestamps are modelled as integers counting days (the source stores ISO
timestamps produced by `datetime.now()` and adds `timedelta(days=...)`;
all intervals in this subsystem are whole days).  Python `int` is
modelled as `Int`.  The in-memory store `flashcards_store` (a Python
dict, insertion-ordered, with unique uuid keys) is modelled as an
association list.
-/

namespace StudyAI

/-- A flashcard as built by `generate_flashcards` in `backend/main.py`
(lines 2365-2378): the dict with keys id, document_id, front, back,
difficulty, topic, next_review, review_count, confidence_level,
created_at; `last_reviewed` is added by `review_flashcard` (absent at
creation, hence `Option`). -/
structure Flashcard where
  id : String
  document_id : String
  front : String
  back : String
  difficulty : Int
  topic : String
  next_review : Int
  review_count : Int
  confidence_level : Int
  last_reviewed : Option Int
  created_at : Int
deriving Repr, DecidableEq

/-- Python list indexing `l[i]`: a negative index counts from the end of
the list; an out-of-range access raises `IndexError`, modelled as
`none`. -/
def pyGet (l : List Int) (i : Int) : Option Int :=
  let j := if i < 0 then i + l.length else i
  if 0 ≤ j then l.get? j.toNat else none

/-- The good-recall interval table `[1, 3, 7, 14, 30, 60, 120]` from
`review_flashcard` (confidence >= 4 branch). -/
def goodTable : List Int := [1, 3, 7, 14, 30, 60, 120]

/-- The medium-recall interval table `[1, 2, 4, 7, 14, 30]` from
`review_flashcard` (confidence == 3 branch). -/
def mediumTable : List Int := [1, 2, 4, 7, 14, 30]

/-- The body of `review_flashcard` acting on a single card
(`backend/main.py` lines 2461-2477), mirroring the statement order of
the source: increment `review_count`, record `confidence_level` and
`last_reviewed`, then branch on confidence to compute `interval_days`
and set `next_review := now + interval_days`.  Returns the mutated card
together with `some (interval_days, next_review)`, or `none` in place of
an uncaught `IndexError` from the table lookup (the card keeps the
mutations already applied before the failing lookup, as in Python). -/
def reviewCard (card : Flashcard) (confidence : Int) (now : Int) :
    Flashcard × Option (Int × Int) :=
  let card := { card with review_count := card.review_count + 1,
                          confidence_level := confidence,
                          last_reviewed := some now }
  if 4 ≤ confidence then
    match pyGet goodTable (min card.review_count 6) with
    | some interval => ({ card with next_review := now + interval },
                        some (interval, now + interval))
    | none => (card, none)
  else if confidence = 3 then
    match pyGet mediumTable (min card.review_count 5) with
    | some interval => ({ card with next_review := now + interval },
                        some (interval, now + interval))
    | none => (card, none)
  else
    let card := { card with review_count := max 0 (card.review_count - 1) }
    ({ card with next_review := now + 1 }, some (1, now + 1))

/-- Lookup in `flashcards_store` by card id (first entry with that key,
as in a Python dict with unique keys). -/
def lookupCard : List (String × Flashcard) → String → Option Flashcard
  | [], _ => none
  | p :: rest, cid => if p.1 = cid then some p.2 else lookupCard rest cid

/-- In-place dict update `flashcards_store[card_id] = card` for a key
already present: the entry keeps its position. -/
def updateCard (store : List (String × Flashcard)) (cid : String)
    (c : Flashcard) : List (String × Flashcard) :=
  store.map (fun p => if p.1 = cid then (cid, c) else p)

/-- The endpoint `review_flashcard` (`backend/main.py` lines 2453-2483):
404 when the card id is unknown (store untouched), otherwise the card is
mutated in place and the response carries `(interval_days, next_review)`;
an uncaught table-lookup error surfaces as a 500 with the partial
mutations retained. -/
def review_flashcard (store : List (String × Flashcard)) (card_id : String)
    (confidence now : Int) :
    List (String × Flashcard) × Except Nat (Int × Int) :=
  match lookupCard store card_id with
  | none => (store, .error 404)
  | some card =>
    match reviewCard card confidence now with
    | (card1, some r) => (updateCard store card_id card1, .ok r)
    | (card1, none) => (updateCard store card_id card1, .error 500)

/-- Raw card content produced by the AI generation step, as consumed by
`generate_flashcards` (question/answer text plus a difficulty). -/
structure CardData where
  question : String
  answer : String
  difficulty : Int
deriving Repr, DecidableEq

/-- Card creation in `generate_flashcards` (`backend/main.py` lines
2365-2378): the new card gets `next_review = now + 1 day`,
`review_count = 0`, `confidence_level = 0`. -/
def generate_flashcard (card_id document_id : String) (data : CardData)
    (topic : String) (now : Int) : Flashcard :=
  { id := card_id
    document_id := document_id
    front := data.question
    back := data.answer
    difficulty := data.difficulty
    topic := topic
    next_review := now + 1
    review_count := 0
    confidence_level := 0
    last_reviewed := none
    created_at := now }

/-- The store-mutating events of the flashcard subsystem: card creation
(`flashcards_store[card_id] = flashcard`, a fresh uuid key appended to
the dict) and review. -/
inductive Event where
  | create (card_id document_id : String) (data : CardData)
      (topic : String) (now : Int)
  | review (card_id : String) (confidence now : Int)
deriving Repr, DecidableEq

/-- One store transition per event. -/
def stepStore (store : List (String × Flashcard)) : Event →
    List (String × Flashcard)
  | .create cid doc d tp now =>
      store ++ [(cid, generate_flashcard cid doc d tp now)]
  | .review cid conf now => (review_flashcard store cid conf now).1

/-- The `next_review` value currently stored for a card id (`none` when
the id is absent). -/
def nextReviewOf (store : List (String × Flashcard)) (cid : String) :
    Option Int :=
  (lookupCard store cid).map Flashcard.next_review

/-- The sort key of `get_due_flashcards`:
`lambda c: (-c['difficulty'], c['review_count'])`. -/
def cardKey (c : Flashcard) : Int × Int := (-c.difficulty, c.review_count)

/-- Lexicographic non-strict order on Python 2-tuples of ints. -/
def keyLe (a b : Int × Int) : Prop :=
  a.1 < b.1 ∨ (a.1 = b.1 ∧ a.2 ≤ b.2)

instance : DecidableRel keyLe := fun a b => by
  unfold keyLe; infer_instance

/-- The comparison `get_due_flashcards` sorts by: `cardKey` compared
lexicographically (descending difficulty first, then ascending
review count). -/
def cardLe (c d : Flashcard) : Prop := keyLe (cardKey c) (cardKey d)

instance : DecidableRel cardLe := fun c d => by
  unfold cardLe keyLe; infer_instance

instance : IsTotal Flashcard cardLe :=
  ⟨fun a b => by unfold cardLe keyLe; omega⟩

instance : IsTrans Flashcard cardLe :=
  ⟨fun a b c hab hbc => by unfold cardLe keyLe at *; omega⟩

/-- Response shape of `get_due_flashcards`. -/
structure DueResponse where
  flashcards : List Flashcard
  total_due : Nat
  total_cards : Nat
deriving Repr, DecidableEq

/-- The due-card filter of `get_due_flashcards`:
`[card for card in flashcards_store.values() if card['next_review'] <= now]`,
iterating the dict in insertion order. -/
def dueFilter (store : List (String × Flashcard)) (now : Int) :
    List Flashcard :=
  (store.map Prod.snd).filter (fun c => decide (c.next_review ≤ now))

/-- The endpoint `get_due_flashcards` (`backend/main.py` lines 2404-2451,
in-memory fallback path): filter the due cards, sort them with Python's
stable `list.sort` under the `(-difficulty, review_count)` key — modelled
by the stable `List.insertionSort` under the same comparison, which has
the same graph (a stable sort's output is unique) — and report
`total_due = len(due_cards)` and `total_cards = len(flashcards_store)`. -/
def get_due_flashcards (store : List (String × Flashcard)) (now : Int) :
    DueResponse :=
  let due := List.insertionSort cardLe (dueFilter store now)
  ⟨due, due.length, store.length⟩

/-- The good-recall interval exactly as the spec (§4.1) words it:
`good_table[min(review_count+1, 6)]` with `review_count` the pre-review
value. -/
def specGoodInterval (rc : Int) : Int :=
  goodTable.getD (min (rc + 1) 6).toNat 0

/-- The medium-recall interval exactly as the spec (§4.1) words it:
`medium_table[min(review_count+1, 5)]` with `review_count` the
pre-review value. -/
def specMediumInterval (rc : Int) : Int :=
  mediumTable.getD (min (rc + 1) 5).toNat 0

/-- The complete §4.1 interval formula as the spec words it, from the
pre-review `review_count` and the supplied confidence. -/
def spec41IntervalDays (rc conf : Int) : Int :=
  if 4 ≤ conf then specGoodInterval rc
  else if conf = 3 then specMediumInterval rc
  else 1

/-! ### Helper lemmas -/

theorem pyGet_goodTable_eq (i : Int) (h1 : 1 ≤ i) (h6 : i ≤ 6) :
    pyGet goodTable i = some (goodTable.getD i.toNat 0) := by
  interval_cases i <;> decide

theorem pyGet_mediumTable_eq (i : Int) (h1 : 1 ≤ i) (h5 : i ≤ 5) :
    pyGet mediumTable i = some (mediumTable.getD i.toNat 0) := by
  interval_cases i <;> decide

/-- Good-recall branch of `reviewCard`, characterized by the §4.1 spec
formula. -/
theorem reviewCard_good (card : Flashcard) (conf now : Int)
    (h : 0 ≤ card.review_count) (h4 : 4 ≤ conf) :
    reviewCard card conf now =
      ({ card with review_count := card.review_count + 1,
                   confidence_level := conf,
                   last_reviewed := some now,
                   next_review := now + specGoodInterval card.review_count },
       some (specGoodInterval card.review_count,
             now + specGoodInterval card.review_count)) := by
  have hp : pyGet goodTable (min (card.review_count + 1) 6) =
      some (specGoodInterval card.review_count) := by
    rw [pyGet_goodTable_eq _ (by omega) (by omega)]
    rfl
  unfold reviewCard
  rw [if_pos h4]
  dsimp only
  rw [hp]

/-- Medium-recall branch of `reviewCard`, characterized by the §4.1 spec
formula. -/
theorem reviewCard_medium (card : Flashcard) (conf now : Int)
    (h : 0 ≤ card.review_count) (h3 : conf = 3) :
    reviewCard card conf now =
      ({ card with review_count := card.review_count + 1,
                   confidence_level := conf,
                   last_reviewed := some now,
                   next_review := now + specMediumInterval card.review_count },
       some (specMediumInterval card.review_count,
             now + specMediumInterval card.review_count)) := by
  have hp : pyGet mediumTable (min (card.review_count + 1) 5) =
      some (specMediumInterval card.review_count) := by
    rw [pyGet_mediumTable_eq _ (by omega) (by omega)]
    rfl
  have h4 : ¬ 4 ≤ conf := by omega
  unfold reviewCard
  rw [if_neg h4, if_pos h3]
  dsimp only
  rw [hp]

/-- Poor-recall branch of `reviewCard` (no precondition on
`review_count`). -/
theorem reviewCard_poor (card : Flashcard) (conf now : Int)
    (h2 : conf ≤ 2) :
    reviewCard card conf now =
      ({ card with review_count := max 0 card.review_count,
                   confidence_level := conf,
                   last_reviewed := some now,
                   next_review := now + 1 },
       some (1, now + 1)) := by
  have h4 : ¬ 4 ≤ conf := by omega
  have h3 : ¬ conf = 3 := by omega
  unfold reviewCard
  rw [if_neg h4, if_neg h3]
  dsimp only
  rw [Int.add_sub_cancel]

/-- Uniform characterization of `reviewCard` on cards satisfying the
store invariant `0 ≤ review_count`: the result follows the §4.1 spec
formula. -/
theorem reviewCard_spec (card : Flashcard) (conf now : Int)
    (h : 0 ≤ card.review_count) :
    reviewCard card conf now =
      ({ card with
          review_count := if conf ≤ 2 then card.review_count
                          else card.review_count + 1,
          confidence_level := conf,
          last_reviewed := some now,
          next_review := now + spec41IntervalDays card.review_count conf },
       some (spec41IntervalDays card.review_count conf,
             now + spec41IntervalDays card.review_count conf)) := by
  rcases (by omega : 4 ≤ conf ∨ conf = 3 ∨ conf ≤ 2) with h4 | h3 | h2
  · rw [reviewCard_good card conf now h h4]
    have hn2 : ¬ conf ≤ 2 := by omega
    rw [spec41IntervalDays, if_pos h4, if_neg hn2]
  · rw [reviewCard_medium card conf now h h3]
    have hn4 : ¬ 4 ≤ conf := by omega
    have hn2 : ¬ conf ≤ 2 := by omega
    rw [spec41IntervalDays, if_neg hn4, if_pos h3, if_neg hn2]
  · rw [reviewCard_poor card conf now h2]
    have hn4 : ¬ 4 ≤ conf := by omega
    have hn3 : ¬ conf = 3 := by omega
    rw [spec41IntervalDays, if_neg hn4, if_neg hn3, if_pos h2,
        max_eq_right h]

theorem specGoodInterval_bounds (rc : Int) (h : 0 ≤ rc) :
    3 ≤ specGoodInterval rc ∧ specGoodInterval rc ≤ 120 := by
  unfold specGoodInterval
  rcases le_or_lt 5 rc with h5 | h5
  · have hm : min (rc + 1) 6 = 6 := by omega
    rw [hm]; decide
  · interval_cases rc <;> decide

theorem specMediumInterval_bounds (rc : Int) (h : 0 ≤ rc) :
    2 ≤ specMediumInterval rc ∧ specMediumInterval rc ≤ 30 := by
  unfold specMediumInterval
  rcases le_or_lt 4 rc with h5 | h5
  · have hm : min (rc + 1) 5 = 5 := by omega
    rw [hm]; decide
  · interval_cases rc <;> decide

theorem spec41IntervalDays_pos (rc conf : Int) (h : 0 ≤ rc) :
    1 ≤ spec41IntervalDays rc conf := by
  unfold spec41IntervalDays
  split_ifs
  · exact le_trans (by omega) (specGoodInterval_bounds rc h).1
  · exact le_trans (by omega) (specMediumInterval_bounds rc h).1
  · omega

theorem specGoodInterval_saturated (rc : Int) (h : 5 ≤ rc) :
    specGoodInterval rc = 120 := by
  unfold specGoodInterval
  have hm : min (rc + 1) 6 = 6 := by omega
  rw [hm]; rfl

theorem lookupCard_updateCard_ne (store : List (String × Flashcard))
    (cid other : String) (c : Flashcard) (h : other ≠ cid) :
    lookupCard (updateCard store cid c) other = lookupCard store other := by
  induction store with
  | nil => rfl
  | cons p rest ih =>
    unfold updateCard at *
    by_cases hp : p.1 = cid
    · simp only [List.map_cons, if_pos hp, lookupCard]
      have hco : ¬ ((cid, c).1 = other) := fun hh => h hh.symm
      rw [if_neg hco, if_neg (hp ▸ fun hh => h hh.symm), ih]
    · simp only [List.map_cons, if_neg hp, lookupCard]
      by_cases ho : p.1 = other
      · rw [if_pos ho, if_pos ho]
      · rw [if_neg ho, if_neg ho, ih]

theorem lookupCard_updateCard_self (store : List (String × Flashcard))
    (cid : String) (c card : Flashcard)
    (h : lookupCard store cid = some card) :
    lookupCard (updateCard store cid c) cid = some c := by
  induction store with
  | nil => simp [lookupCard] at h
  | cons p rest ih =>
    unfold updateCard at *
    by_cases hp : p.1 = cid
    · simp only [List.map_cons, if_pos hp, lookupCard]
      rw [if_pos trivial]
    · simp only [List.map_cons, if_neg hp, lookupCard]
      unfold lookupCard at h
      rw [if_neg hp] at h
      exact ih h

theorem lookupCard_append_of_none (store : List (String × Flashcard))
    (p : String × Flashcard) (cid : String)
    (h : lookupCard store cid = none) :
    lookupCard (store ++ [p]) cid =
      if p.1 = cid then some p.2 else none := by
  induction store with
  | nil => rfl
  | cons q rest ih =>
    rw [List.cons_append]
    simp only [lookupCard] at h ⊢
    by_cases hq : q.1 = cid
    · rw [if_pos hq] at h; exact absurd h (by simp)
    · rw [if_neg hq] at h ⊢
      exact ih h

theorem lookupCard_append_of_some (store : List (String × Flashcard))
    (p : String × Flashcard) (cid : String) (c : Flashcard)
    (h : lookupCard store cid = some c) :
    lookupCard (store ++ [p]) cid = some c := by
  induction store with
  | nil => simp [lookupCard] at h
  | cons q rest ih =>
    rw [List.cons_append]
    simp only [lookupCard] at h ⊢
    by_cases hq : q.1 = cid
    · rw [if_pos hq] at h ⊢; exact h
    · rw [if_neg hq] at h ⊢
      exact ih h

/-! ### Concrete sample data for witnesses -/

/-- A freshly generated card (`review_count = 0`, `next_review` one day
after a creation time of 0), as built by `generate_flashcards`. -/
def sampleCard : Flashcard :=
  { id := "card-1", document_id := "doc-1", front := "Q", back := "A",
    difficulty := 3, topic := "t", next_review := 1, review_count := 0,
    confidence_level := 0, last_reviewed := none, created_at := 0 }

/-- A well-rehearsed card, past the end of the good-recall table. -/
def sampleCard10 : Flashcard := { sampleCard with review_count := 10 }

/-- A one-card store. -/
def sampleStore : List (String × Flashcard) := [("card-1", sampleCard)]

/-! ### Claims -/

/-- C1: for an existing flashcard and confidence >= 4, review increments
`review_count` by exactly 1 and sets the interval to
`good_table[min(review_count+1, 6)]` days (`review_count` the pre-review
value); for confidence == 3 the interval is
`medium_table[min(review_count+1, 5)]` days; in both cases `next_review`
is the now of the computation plus that many days. -/
theorem C1_review_good_medium (card : Flashcard) (conf now : Int)
    (h : 0 ≤ card.review_count) :
    (4 ≤ conf →
      (reviewCard card conf now).1.review_count = card.review_count + 1 ∧
      (reviewCard card conf now).2 =
        some (specGoodInterval card.review_count,
              now + specGoodInterval card.review_count) ∧
      (reviewCard card conf now).1.next_review =
        now + specGoodInterval card.review_count) ∧
    (conf = 3 →
      (reviewCard card conf now).1.review_count = card.review_count + 1 ∧
      (reviewCard card conf now).2 =
        some (specMediumInterval card.review_count,
              now + specMediumInterval card.review_count) ∧
      (reviewCard card conf now).1.next_review =
        now + specMediumInterval card.review_count) := by
  constructor
  · intro h4
    rw [reviewCard_good card conf now h h4]
    exact ⟨rfl, rfl, rfl⟩
  · intro h3
    rw [reviewCard_medium card conf now h h3]
    exact ⟨rfl, rfl, rfl⟩

theorem C1_review_good_medium_witness :
    (reviewCard sampleCard 5 0).1.review_count = 1 ∧
    (reviewCard sampleCard 5 0).2 = some (3, 3) ∧
    (reviewCard sampleCard 3 0).2 = some (2, 2) := by
  have h5 := C1_review_good_medium sampleCard 5 0 (by decide)
  have h3 := C1_review_good_medium sampleCard 3 0 (by decide)
  exact ⟨(h5.1 (by decide)).1.trans (by decide),
         (h5.1 (by decide)).2.1.trans (by decide),
         (h3.2 rfl).2.1.trans (by decide)⟩

/-- C2: for confidence <= 2 (including zero and negative values), review
yields an interval of exactly 1 day, and the new `review_count` equals
`max(0, old review_count)` (incremented then decremented, clamped at 0),
so it never goes negative. -/
theorem C2_poor_recall (card : Flashcard) (conf now : Int)
    (h2 : conf ≤ 2) :
    (reviewCard card conf now).2 = some (1, now + 1) ∧
    (reviewCard card conf now).1.review_count = max 0 card.review_count ∧
    0 ≤ (reviewCard card conf now).1.review_count := by
  rw [reviewCard_poor card conf now h2]
  exact ⟨rfl, rfl, le_max_left 0 _⟩

theorem C2_poor_recall_witness :
    (reviewCard sampleCard 0 0).2 = some (1, 1) ∧
    (reviewCard sampleCard 0 0).1.review_count = 0 ∧
    (reviewCard sampleCard (-3) 7).2 = some (1, 8) := by
  have h0 := C2_poor_recall sampleCard 0 0 (by decide)
  have hn := C2_poor_recall sampleCard (-3) 7 (by decide)
  exact ⟨h0.1.trans (by decide), h0.2.1.trans (by decide),
         hn.1.trans (by decide)⟩

/-- C4: for every card (with the store invariant `review_count >= 0`)
and every confidence, review computes an interval >= 1, so `next_review`
is strictly in the future relative to the now of the computation, and the
resulting `review_count` is >= 0. -/
theorem C4_next_review_future (card : Flashcard) (conf now : Int)
    (h : 0 ≤ card.review_count) :
    ∃ interval,
      (reviewCard card conf now).2 = some (interval, now + interval) ∧
      1 ≤ interval ∧
      (reviewCard card conf now).1.next_review = now + interval ∧
      now < (reviewCard card conf now).1.next_review ∧
      0 ≤ (reviewCard card conf now).1.review_count := by
  refine ⟨spec41IntervalDays card.review_count conf, ?_⟩
  have hpos := spec41IntervalDays_pos card.review_count conf h
  rw [reviewCard_spec card conf now h]
  refine ⟨rfl, hpos, rfl, ?_, ?_⟩
  · show now < now + spec41IntervalDays card.review_count conf
    omega
  · show 0 ≤ (if conf ≤ 2 then card.review_count
              else card.review_count + 1)
    split_ifs <;> omega

theorem C4_next_review_future_witness :
    0 < (reviewCard sampleCard 5 0).1.next_review ∧
    0 ≤ (reviewCard sampleCard 5 0).1.review_count := by
  obtain ⟨i, _, _, _, hfut, hnn⟩ :=
    C4_next_review_future sampleCard 5 0 (by decide)
  exact ⟨hfut, hnn⟩

/-- C6: reviewing an unknown card id fails with 404 and the store is
unchanged. -/
theorem C6_unknown_card_404 (store : List (String × Flashcard))
    (cid : String) (conf now : Int)
    (h : lookupCard store cid = none) :
    review_flashcard store cid conf now = (store, Except.error 404) := by
  unfold review_flashcard
  rw [h]

theorem C6_unknown_card_404_witness :
    review_flashcard sampleStore "missing" 5 0 =
      (sampleStore, Except.error 404) :=
  C6_unknown_card_404 sampleStore "missing" 5 0 (by decide)

/-- C7: for an existing card (store invariant `review_count >= 0`) and
any integer confidence, including values outside 0-5, the review
operation completes normally (no error): the confidence is routed into
one of the three recall branches and the response is `ok` with the §4.1
interval. -/
theorem C7_any_confidence_ok (store : List (String × Flashcard))
    (cid : String) (conf now : Int) (card : Flashcard)
    (hc : lookupCard store cid = some card)
    (h : 0 ≤ card.review_count) :
    review_flashcard store cid conf now =
      (updateCard store cid (reviewCard card conf now).1,
       Except.ok (spec41IntervalDays card.review_count conf,
                  now + spec41IntervalDays card.review_count conf)) := by
  unfold review_flashcard
  rw [hc]
  dsimp only
  rw [reviewCard_spec card conf now h]

theorem C7_any_confidence_ok_witness :
    (review_flashcard sampleStore "card-1" (-7) 0).2 = Except.ok (1, 1) ∧
    (review_flashcard sampleStore "card-1" 99 0).2 = Except.ok (3, 3) := by
  have hlow := C7_any_confidence_ok sampleStore "card-1" (-7) 0 sampleCard
      (by decide) (by decide)
  have hhigh := C7_any_confidence_ok sampleStore "card-1" 99 0 sampleCard
      (by decide) (by decide)
  constructor
  · rw [hlow]; rfl
  · rw [hhigh]; rfl

/-- C8: reviewing with confidence 5 always increments `review_count`,
and once `review_count >= 6` the good-table index saturates at 6, giving
an interval of 120 days on every further confidence-5 review. -/
theorem C8_confidence_five_saturation (card : Flashcard) (now : Int)
    (h : 0 ≤ card.review_count) :
    (reviewCard card 5 now).1.review_count = card.review_count + 1 ∧
    (6 ≤ card.review_count →
      (reviewCard card 5 now).2 = some (120, now + 120)) := by
  rw [reviewCard_good card 5 now h (by omega)]
  refine ⟨rfl, fun h6 => ?_⟩
  rw [specGoodInterval_saturated card.review_count (by omega)]

theorem C8_confidence_five_saturation_witness :
    (reviewCard sampleCard10 5 0).1.review_count = 11 ∧
    (reviewCard sampleCard10 5 0).2 = some (120, 120) := by
  have h := C8_confidence_five_saturation sampleCard10 0 (by decide)
  exact ⟨h.1.trans (by decide), (h.2 (by decide)).trans (by decide)⟩

/-- C10: for confidence >= 4 the computed interval is at least 3 days:
the good table's first entry (1 day) is unreachable because the index
uses the post-increment `review_count`, which is at least 1. -/
theorem C10_good_interval_ge_three (card : Flashcard) (conf now : Int)
    (h : 0 ≤ card.review_count) (h4 : 4 ≤ conf) :
    (reviewCard card conf now).2 =
      some (specGoodInterval card.review_count,
            now + specGoodInterval card.review_count) ∧
    3 ≤ specGoodInterval card.review_count := by
  rw [reviewCard_good card conf now h h4]
  exact ⟨rfl, (specGoodInterval_bounds card.review_count h).1⟩

theorem C10_good_interval_ge_three_witness :
    (reviewCard sampleCard 4 0).2 = some (3, 3) ∧
    3 ≤ specGoodInterval 0 := by
  have h := C10_good_interval_ge_three sampleCard 4 0 (by decide) (by decide)
  exact ⟨h.1.trans (by decide), h.2⟩

/-- In every branch, `reviewCard` leaves the identity and content
fields of the card untouched. -/
theorem reviewCard_frame (card : Flashcard) (conf now : Int) :
    (reviewCard card conf now).1.front = card.front ∧
    (reviewCard card conf now).1.back = card.back ∧
    (reviewCard card conf now).1.difficulty = card.difficulty ∧
    (reviewCard card conf now).1.id = card.id ∧
    (reviewCard card conf now).1.document_id = card.document_id ∧
    (reviewCard card conf now).1.created_at = card.created_at := by
  unfold reviewCard
  dsimp only
  split_ifs with h4 h3
  · rcases pyGet goodTable (min (card.review_count + 1) 6) with _ | i <;>
      exact ⟨rfl, rfl, rfl, rfl, rfl, rfl⟩
  · rcases pyGet mediumTable (min (card.review_count + 1) 5) with _ | i <;>
      exact ⟨rfl, rfl, rfl, rfl, rfl, rfl⟩
  · exact ⟨rfl, rfl, rfl, rfl, rfl, rfl⟩

/-- C9: review modifies only `review_count`, `confidence_level`,
`last_reviewed` and `next_review` of the targeted card — `front`,
`back`, `difficulty`, `id`, `document_id` and `created_at` are
unchanged — and every other card in the store is unchanged. -/
theorem C9_review_frame (store : List (String × Flashcard))
    (cid : String) (conf now : Int) :
    (∀ card, lookupCard store cid = some card →
      (reviewCard card conf now).1.front = card.front ∧
      (reviewCard card conf now).1.back = card.back ∧
      (reviewCard card conf now).1.difficulty = card.difficulty ∧
      (reviewCard card conf now).1.id = card.id ∧
      (reviewCard card conf now).1.document_id = card.document_id ∧
      (reviewCard card conf now).1.created_at = card.created_at) ∧
    (∀ other, other ≠ cid →
      lookupCard (review_flashcard store cid conf now).1 other =
        lookupCard store other) := by
  constructor
  · intro card _
    exact reviewCard_frame card conf now
  · intro other hne
    unfold review_flashcard
    cases hl : lookupCard store cid with
    | none => rfl
    | some card =>
      dsimp only
      rcases hr : reviewCard card conf now with ⟨card1, r⟩
      rcases r with _ | v <;>
        exact lookupCard_updateCard_ne store cid other card1 hne

theorem C9_review_frame_witness :
    (reviewCard sampleCard 5 0).1.front = "Q" ∧
    (reviewCard sampleCard 5 0).1.difficulty = 3 ∧
    lookupCard (review_flashcard sampleStore "card-1" 5 0).1 "other" =
      lookupCard sampleStore "other" := by
  have h := C9_review_frame sampleStore "card-1" 5 0
  exact ⟨((h.1 sampleCard (by decide)).1).trans rfl,
         ((h.1 sampleCard (by decide)).2.2.1).trans rfl,
         h.2 "other" (by decide)⟩

/-- C5: due-card selection returns exactly the cards with
`next_review <= now`, sorted by `(-difficulty, review_count)` ascending,
stably (cards comparing equal keep their store order) and
deterministically, without mutating any card; `total_due` equals the
number of returned cards and `total_cards` the size of the store. -/
theorem C5_due_selection (store : List (String × Flashcard)) (now : Int) :
    List.Perm (get_due_flashcards store now).flashcards
      (dueFilter store now) ∧
    List.Sorted cardLe (get_due_flashcards store now).flashcards ∧
    (∀ a b, cardLe a b →
      List.Sublist [a, b] (dueFilter store now) →
      List.Sublist [a, b] (get_due_flashcards store now).flashcards) ∧
    (get_due_flashcards store now).total_due =
      (get_due_flashcards store now).flashcards.length ∧
    (get_due_flashcards store now).total_cards = store.length ∧
    (∀ c, c ∈ (get_due_flashcards store now).flashcards ↔
      c ∈ store.map Prod.snd ∧ c.next_review ≤ now) := by
  refine ⟨List.perm_insertionSort cardLe _,
          List.sorted_insertionSort cardLe _,
          fun a b hab hsub => List.pair_sublist_insertionSort hab hsub,
          rfl, rfl, fun c => ?_⟩
  show c ∈ List.insertionSort cardLe (dueFilter store now) ↔ _
  rw [(List.perm_insertionSort cardLe (dueFilter store now)).mem_iff]
  unfold dueFilter
  simp [List.mem_filter]

/-- A hard due card (sorts first under descending difficulty). -/
def demoHard : Flashcard := { sampleCard with id := "h", difficulty := 5 }

/-- Two due cards with identical sort keys, to exercise stability. -/
def demoTie1 : Flashcard :=
  { sampleCard with id := "t1", difficulty := 2, review_count := 1 }

/-- Second card of the equal-key pair, later in store order. -/
def demoTie2 : Flashcard :=
  { sampleCard with id := "t2", difficulty := 2, review_count := 1 }

/-- A card that is not yet due. -/
def demoLate : Flashcard := { sampleCard with id := "l", next_review := 999 }

/-- Store holding the four demo cards in insertion order. -/
def demoStore : List (String × Flashcard) :=
  [("t1", demoTie1), ("h", demoHard), ("t2", demoTie2), ("l", demoLate)]

theorem C5_due_selection_witness :
    List.Sublist [demoTie1, demoTie2]
      (get_due_flashcards demoStore 100).flashcards ∧
    (get_due_flashcards demoStore 100).total_cards = 4 ∧
    (get_due_flashcards demoStore 100).total_due = 3 := by
  have h := C5_due_selection demoStore 100
  refine ⟨h.2.2.1 demoTie1 demoTie2 (by decide) (by decide), ?_, ?_⟩
  · exact h.2.2.2.2.1.trans (by decide)
  · exact h.2.2.2.1.trans (by decide)

/-- The claim of C3 as stated: every store transition that changes a
card's stored `next_review` is a review event (no other code path,
including card creation, sets `next_review`). -/
def OnlyReviewSetsNextReview : Prop :=
  ∀ (store : List (String × Flashcard)) (e : Event) (cid : String),
    nextReviewOf (stepStore store e) cid ≠ nextReviewOf store cid →
    ∃ cid1 conf now, e = Event.review cid1 conf now

/-- C3 counterexample: creating a card on an empty store sets the new
card's `next_review` (to creation time + 1 day), so a non-review code
path assigns `next_review` and the claim as stated is false. -/
theorem C3_counterexample : ¬ OnlyReviewSetsNextReview := by
  intro h
  obtain ⟨cid1, conf, now, heq⟩ :=
    h [] (Event.create "c" "d" ⟨"q", "a", 3⟩ "t" 0) "c" (by decide)
  exact Event.noConfusion heq

/-- Membership behind a successful lookup. -/
theorem lookupCard_mem (store : List (String × Flashcard)) (cid : String)
    (card : Flashcard) (h : lookupCard store cid = some card) :
    ∃ k, (k, card) ∈ store := by
  induction store with
  | nil => simp [lookupCard] at h
  | cons p rest ih =>
    unfold lookupCard at h
    by_cases hp : p.1 = cid
    · rw [if_pos hp] at h
      rw [Option.some_inj] at h
      exact ⟨p.1, by rw [← h]; exact List.mem_cons_self p rest⟩
    · rw [if_neg hp] at h
      obtain ⟨k, hk⟩ := ih h
      exact ⟨k, List.mem_cons_of_mem p hk⟩

/-- C3 amended: on stores satisfying the `review_count >= 0` invariant,
every transition that changes a stored `next_review` is either a review
of that card — assigning `now + ` the §4.1 formula interval computed
from the card's pre-review `review_count` and the supplied confidence —
or the creation of that card, which initializes `next_review` to the
creation `now` plus 1 day. -/
theorem C3_next_review_provenance (store : List (String × Flashcard))
    (e : Event) (cid : String)
    (hinv : ∀ p ∈ store, 0 ≤ (Prod.snd p).review_count)
    (h : nextReviewOf (stepStore store e) cid ≠ nextReviewOf store cid) :
    (∃ conf now card, e = Event.review cid conf now ∧
      lookupCard store cid = some card ∧
      nextReviewOf (stepStore store e) cid =
        some (now + spec41IntervalDays card.review_count conf)) ∨
    (∃ doc d tp now, e = Event.create cid doc d tp now ∧
      lookupCard store cid = none ∧
      nextReviewOf (stepStore store e) cid = some (now + 1)) := by
  cases e with
  | create cid1 doc d tp now =>
    right
    cases hl : lookupCard store cid with
    | some c =>
      exfalso
      apply h
      unfold stepStore nextReviewOf
      rw [lookupCard_append_of_some store _ cid c hl, hl]
    | none =>
      by_cases hc : cid1 = cid
      · subst hc
        refine ⟨doc, d, tp, now, rfl, rfl, ?_⟩
        unfold stepStore nextReviewOf
        rw [lookupCard_append_of_none store _ cid1 hl, if_pos rfl]
        rfl
      · exfalso
        apply h
        unfold stepStore nextReviewOf
        rw [lookupCard_append_of_none store _ cid hl]
        dsimp only
        rw [if_neg hc, hl]
  | review cid1 conf now =>
    left
    cases hl : lookupCard store cid1 with
    | none =>
      exfalso
      apply h
      show nextReviewOf (review_flashcard store cid1 conf now).1 cid =
        nextReviewOf store cid
      unfold review_flashcard
      rw [hl]
    | some card =>
      have hrc : 0 ≤ card.review_count := by
        obtain ⟨k, hk⟩ := lookupCard_mem store cid1 card hl
        exact hinv (k, card) hk
      by_cases hc : cid1 = cid
      · subst hc
        refine ⟨conf, now, card, rfl, hl, ?_⟩
        show nextReviewOf (review_flashcard store cid1 conf now).1 cid1 =
          some (now + spec41IntervalDays card.review_count conf)
        unfold review_flashcard
        rw [hl]
        dsimp only
        rw [reviewCard_spec card conf now hrc]
        unfold nextReviewOf
        rw [lookupCard_updateCard_self store cid1 _ card hl]
        rfl
      · exfalso
        apply h
        show nextReviewOf (review_flashcard store cid1 conf now).1 cid =
          nextReviewOf store cid
        unfold review_flashcard
        rw [hl]
        dsimp only
        rcases hr : reviewCard card conf now with ⟨card1, r⟩
        unfold nextReviewOf
        rcases r with _ | v <;>
          · dsimp only
            rw [lookupCard_updateCard_ne store cid1 cid card1
                (fun hh => hc hh.symm)]

theorem C3_next_review_provenance_witness :
    nextReviewOf
      (stepStore [] (Event.create "c" "d" ⟨"q", "a", 3⟩ "t" 0)) "c" =
      some 1 := by
  have h := C3_next_review_provenance []
      (Event.create "c" "d" ⟨"q", "a", 3⟩ "t" 0) "c"
      (by intro p hp; exact absurd hp (List.not_mem_nil p)) (by decide)
  rcases h with ⟨conf, now, card, heq, _, _⟩ | ⟨doc, d, tp, now, heq, _, hval⟩
  · exact Event.noConfusion heq
  · injection heq with h1 h2 h3 h4 h5
    subst h5
    exact hval.trans rfl

end StudyAI
